import Mathlib

/-!
Verification of the Capto caption layout and rendering engine
(`caption_creator.py`, `config.py`) via a shallow embedding.

Times are rational numbers (the Python floats hold exact short decimals in
every scenario treated here); pixel widths/heights are natural numbers, as
PIL `textbbox` returns integers.
-/

/-- A word-level timestamp as produced by the transcription collaborator:
`{word, start, end}`.  `end` is a Lean keyword, so the field is `stop`. -/
structure WordStamp where
  word : String
  start : ℚ
  stop : ℚ
deriving DecidableEq, Repr

/-- Embedding of `CaptionCreator._calculate_word_duration` (caption_creator.py
lines 69-92): start is the word's own start; end is the next word's start when
one exists, else the word's own end; end is clamped by `min` to the video
duration; duration is `end - start`.  Returns `(start_time, end_time,
duration)`. -/
def calculate_word_duration (ts : List WordStamp) (vidDur : ℚ) (i : Nat)
    (h : i < ts.length) : ℚ × ℚ × ℚ :=
  let word_data := ts.get ⟨i, h⟩
  let start_time := word_data.start
  let end_raw := if h2 : i < ts.length - 1 then (ts.get ⟨i + 1, by omega⟩).start
    else word_data.stop
  let end_time := min end_raw vidDur
  (start_time, end_time, end_time - start_time)

/-- C1 counterexample input: two words, the second starting after the video
ends (`videoDuration = 5`). -/
def tsC1 : List WordStamp := [⟨"a", 4, 6⟩, ⟨"b", 11/2, 6⟩]

/-- C1 (counterexample): the claim says that for an index with a following
word the resolver returns `end = timestamps[i+1].start` — but the code clamps
that value by the video duration too.  Here `timestamps[1].start = 11/2`
exceeds `videoDuration = 5`, and the resolver returns `5`, not `11/2`. -/
theorem calculate_word_duration_end_not_next_start :
    (calculate_word_duration tsC1 5 0 (by decide)).2.1 = 5 ∧
    (calculate_word_duration tsC1 5 0 (by decide)).2.1 ≠ 11/2 := by
  constructor
  · show min (11/2 : ℚ) 5 = 5
    norm_num
  · show min (11/2 : ℚ) 5 ≠ 11/2
    norm_num

/-- C1 (amended): for every index with a following word the resolver returns
`end = min(timestamps[i+1].start, videoDuration)`; for the last index it
returns `end = min(timestamps[i].end, videoDuration)`. -/
theorem calculate_word_duration_end_continuity (ts : List WordStamp)
    (vidDur : ℚ) (i : Nat) (h : i < ts.length) :
    (∀ h2 : i + 1 < ts.length,
      (calculate_word_duration ts vidDur i h).2.1 =
        min (ts.get ⟨i + 1, h2⟩).start vidDur) ∧
    (i + 1 = ts.length →
      (calculate_word_duration ts vidDur i h).2.1 =
        min (ts.get ⟨i, h⟩).stop vidDur) := by
  constructor
  · intro h2
    unfold calculate_word_duration
    have hlt : i < ts.length - 1 := by omega
    simp only [hlt, dite_true, dif_pos]
  · intro hlast
    unfold calculate_word_duration
    have hnlt : ¬ i < ts.length - 1 := by omega
    simp only [hnlt, dite_false, dif_neg, not_false_iff]

/-- Witness for the amended C1 at a concrete input: both branches evaluated on
a two-word transcription with `videoDuration = 10`. -/
theorem calculate_word_duration_end_continuity_witness :
    (calculate_word_duration [⟨"a", 0, 1⟩, ⟨"b", 1, 2⟩] 10 0 (by decide)).2.1 =
      min (1 : ℚ) 10 ∧
    (calculate_word_duration [⟨"a", 0, 1⟩, ⟨"b", 1, 2⟩] 10 1 (by decide)).2.1 =
      min (2 : ℚ) 10 :=
  ⟨(calculate_word_duration_end_continuity [⟨"a", 0, 1⟩, ⟨"b", 1, 2⟩] 10 0
      (by decide)).1 (by decide),
   (calculate_word_duration_end_continuity [⟨"a", 0, 1⟩, ⟨"b", 1, 2⟩] 10 1
      (by decide)).2 (by decide)⟩

/-- The characters stripped from both ends of a raw word by
`CaptionCreator._clean_word` (caption_creator.py line 67): the Python literal
concatenates to the set `. , ! ? ; : "`. -/
def strip_chars : List Char := ['.', ',', '!', '?', ';', ':', '"']

/-- Embedding of `CaptionCreator._clean_word`: strip the characters of
`strip_chars` from both ends (Python `str.strip(chars)`), then uppercase
(Python `str.upper`; ASCII-faithful via `Char.toUpper`). -/
def clean_word (w : String) : String :=
  let l := w.data.dropWhile (fun c => c ∈ strip_chars)
  let l2 := (l.reverse.dropWhile (fun c => c ∈ strip_chars)).reverse
  String.mk (l2.map Char.toUpper)

/-- A measured word entering line layout: display text, fill color, and the
PIL `textbbox` width and height (caption_creator.py lines 172-175). -/
structure LWord where
  text : String
  color : String
  width : Nat
  height : Nat
deriving DecidableEq, Repr

/-- One buffered line, exactly the tuple `(current_line, current_line_width,
max_line_height)` appended to `lines` (caption_creator.py lines 180, 191):
words are `(word, color, word_width)` entries; the recorded width includes the
trailing inter-word space, as in the source. -/
structure LLine where
  words : List (String × String × Nat)
  width : Nat
  height : Nat
deriving DecidableEq, Repr

/-- The loop state of the line-buffering pass (caption_creator.py
lines 166-170). -/
structure LayoutState where
  lines : List LLine
  current_line : List (String × String × Nat)
  current_line_width : Nat
  max_line_height : Nat
  total_height : Nat
deriving DecidableEq, Repr

/-- The `(word, color, word_width)` entry appended to `current_line`
(caption_creator.py line 187). -/
def entryOf (w : LWord) : String × String × Nat := (w.text, w.color, w.width)

/-- One iteration of the layout loop (caption_creator.py lines 172-188):
`max_line_height` absorbs the incoming word's height *before* the overflow
check; if `current_line_width + word_width > caption_width` the current line
is committed (even when empty) with line spacing 10, then the word is appended
to the (possibly fresh) current line and the running width grows by
`word_width + space_width`. -/
def layout_step (cap s : Nat) (st : LayoutState) (w : LWord) : LayoutState :=
  let mlh := max st.max_line_height w.height
  if cap < st.current_line_width + w.width then
    { lines := st.lines ++ [⟨st.current_line, st.current_line_width, mlh⟩],
      current_line := [entryOf w],
      current_line_width := w.width + s,
      max_line_height := w.height,
      total_height := st.total_height + mlh + 10 }
  else
    { lines := st.lines,
      current_line := st.current_line ++ [entryOf w],
      current_line_width := st.current_line_width + w.width + s,
      max_line_height := mlh,
      total_height := st.total_height }

/-- After the loop: commit the final line only when it is non-empty
(caption_creator.py lines 190-192). -/
def layout_finish (st : LayoutState) : List LLine × Nat :=
  if st.current_line = [] then (st.lines, st.total_height)
  else (st.lines ++ [⟨st.current_line, st.current_line_width, st.max_line_height⟩],
    st.total_height + st.max_line_height + 10)

/-- The line-buffering pass of `_create_highlighted_group_clip`
(caption_creator.py lines 165-192): fold the measured words through
`layout_step` from the empty state, then commit the trailing line.  Returns
the buffered lines and the accumulated height (before descender padding). -/
def layout (cap s : Nat) (ws : List LWord) : List LLine × Nat :=
  layout_finish (ws.foldl (layout_step cap s) ⟨[], [], 0, 0, 0⟩)

/-- All word entries of a list of buffered lines, in order. -/
def flat_words : List LLine → List (String × String × Nat)
  | [] => []
  | l :: ls => l.words ++ flat_words ls

/-- All word entries already placed by a layout state: committed lines first,
then the open line. -/
def flat_acc (st : LayoutState) : List (String × String × Nat) :=
  flat_words st.lines ++ st.current_line

/-- The quantity of testable property 3: sum of the word widths of a line plus
one inter-word space per gap. -/
def entries_width (s : Nat) (es : List (String × String × Nat)) : Nat :=
  (es.map (fun e => e.2.2)).sum + (es.length - 1) * s

/-- Invariant satisfied by every line the layout loop builds: it is a
singleton (possibly oversized, possibly the empty first line) or its words and
inter-word spaces fit within the caption width. -/
def line_ok (cap s : Nat) (es : List (String × String × Nat)) : Prop :=
  es.length ≤ 1 ∨ entries_width s es ≤ cap

theorem flat_words_append (a b : List LLine) :
    flat_words (a ++ b) = flat_words a ++ flat_words b := by
  induction a with
  | nil => simp [flat_words]
  | cons l ls ih => simp [flat_words, ih]

theorem foldl_layout_inv (cap s : Nat) (P : LayoutState → Prop)
    (hstep : ∀ st w, P st → P (layout_step cap s st w)) :
    ∀ (ws : List LWord) (st : LayoutState), P st →
      P (ws.foldl (layout_step cap s) st)
  | [], _, h => h
  | w :: ws, st, h =>
    foldl_layout_inv cap s P hstep ws (layout_step cap s st w) (hstep st w h)

theorem layout_step_flat (cap s : Nat) (st : LayoutState) (w : LWord) :
    flat_acc (layout_step cap s st w) = flat_acc st ++ [entryOf w] := by
  unfold layout_step flat_acc
  split
  · simp [flat_words_append, flat_words]
  · simp

theorem foldl_layout_flat (cap s : Nat) :
    ∀ (ws : List LWord) (st : LayoutState),
      flat_acc (ws.foldl (layout_step cap s) st) = flat_acc st ++ ws.map entryOf := by
  intro ws
  induction ws with
  | nil => simp
  | cons w ws ih =>
    intro st
    simp only [List.foldl_cons, List.map_cons]
    rw [ih, layout_step_flat]
    simp

/-- The word entries across all produced lines are exactly the input words, in
order. -/
theorem layout_flat (cap s : Nat) (ws : List LWord) :
    flat_words (layout cap s ws).1 = ws.map entryOf := by
  unfold layout layout_finish
  have h := foldl_layout_flat cap s ws ⟨[], [], 0, 0, 0⟩
  simp only [flat_acc, flat_words, List.nil_append] at h
  split
  · rename_i hcur
    rw [hcur] at h
    simpa using h
  · simpa [flat_words_append, flat_words, flat_acc] using h

theorem sum_map_add_const (s : Nat) (es : List (String × String × Nat)) :
    (es.map (fun e => e.2.2 + s)).sum = (es.map (fun e => e.2.2)).sum + es.length * s := by
  induction es with
  | nil => simp
  | cons e es ih => simp [ih, Nat.succ_mul]; omega

/-- The width/`line_ok` invariant of the layout loop. -/
def bound_inv (cap s : Nat) (st : LayoutState) : Prop :=
  (∀ l ∈ st.lines, line_ok cap s l.words) ∧
  line_ok cap s st.current_line ∧
  st.current_line_width = (st.current_line.map (fun e => e.2.2 + s)).sum

theorem layout_step_bound (cap s : Nat) (st : LayoutState) (w : LWord)
    (h : bound_inv cap s st) : bound_inv cap s (layout_step cap s st w) := by
  obtain ⟨h1, h2, h3⟩ := h
  unfold layout_step
  split
  · refine ⟨?_, Or.inl (by simp), by simp [entryOf]⟩
    intro l hl
    rcases List.mem_append.mp hl with hm | hm
    · exact h1 l hm
    · simp at hm
      rw [hm]
      exact h2
  · rename_i hcond
    push_neg at hcond
    refine ⟨h1, Or.inr ?_, ?_⟩
    · unfold entries_width
      have hw := sum_map_add_const s st.current_line
      simp only [List.map_append, List.sum_append, List.length_append]
      simp [entryOf]
      omega
    · have hw := sum_map_add_const s st.current_line
      have hw2 := sum_map_add_const s (st.current_line ++ [entryOf w])
      simp only [List.map_append, List.sum_append, List.length_append] at hw2
      simp [entryOf] at hw2 ⊢
      omega

/-- Every produced line satisfies `line_ok`. -/
theorem layout_lines_ok (cap s : Nat) (ws : List LWord) :
    ∀ l ∈ (layout cap s ws).1, line_ok cap s l.words := by
  have hinv : bound_inv cap s (ws.foldl (layout_step cap s) ⟨[], [], 0, 0, 0⟩) := by
    refine foldl_layout_inv cap s _ (layout_step_bound cap s) ws _ ?_
    exact ⟨by simp, Or.inl (by simp), by simp⟩
  obtain ⟨h1, h2, _⟩ := hinv
  unfold layout layout_finish
  split
  · exact h1
  · intro l hl
    rcases List.mem_append.mp hl with hm | hm
    · exact h1 l hm
    · simp at hm
      rw [hm]
      exact h2

/-- A member of a `line_ok` line that is wider than the caption width is the
only word of its line. -/
theorem line_ok_oversized (cap s : Nat) (es : List (String × String × Nat))
    (hok : line_ok cap s es) (e : String × String × Nat) (he : e ∈ es)
    (hw : cap < e.2.2) : es = [e] := by
  rcases hok with hlen | hbound
  · match es, he with
    | [x], he =>
      simp at he
      rw [he]
  · exfalso
    have hmem : e.2.2 ∈ es.map (fun e => e.2.2) := List.mem_map_of_mem _ he
    have hle : e.2.2 ≤ (es.map (fun e => e.2.2)).sum := List.le_sum_of_mem hmem
    unfold entries_width at hbound
    omega

/-- The "all lines after the first are non-empty" invariant. -/
def tail_nonempty_inv (st : LayoutState) : Prop :=
  (∀ l ∈ st.lines.drop 1, l.words ≠ []) ∧ (st.lines = [] ∨ st.current_line ≠ [])

theorem layout_step_tail_nonempty (cap s : Nat) (st : LayoutState) (w : LWord)
    (h : tail_nonempty_inv st) : tail_nonempty_inv (layout_step cap s st w) := by
  obtain ⟨h1, h2⟩ := h
  unfold layout_step
  split
  · constructor
    · intro l hl
      match hst : st.lines with
      | [] => simp [hst] at hl
      | a :: rest =>
        rw [hst] at hl
        simp only [List.cons_append, List.drop_succ_cons, List.drop_zero] at hl
        rcases List.mem_append.mp hl with hm | hm
        · exact h1 l (by rw [hst]; simpa using hm)
        · simp at hm
          rw [hm]
          simp only
          rcases h2 with hc | hc
          · rw [hst] at hc; cases hc
          · exact hc
    · exact Or.inr (by simp [entryOf])
  · exact ⟨h1, Or.inr (by simp)⟩

/-- Every line after the first produced line holds at least one word. -/
theorem layout_tail_nonempty (cap s : Nat) (ws : List LWord) :
    ∀ l ∈ (layout cap s ws).1.drop 1, l.words ≠ [] := by
  have hinv : tail_nonempty_inv (ws.foldl (layout_step cap s) ⟨[], [], 0, 0, 0⟩) := by
    refine foldl_layout_inv cap s _ (layout_step_tail_nonempty cap s) ws _ ?_
    exact ⟨by simp, Or.inl rfl⟩
  obtain ⟨h1, h2⟩ := hinv
  set st := ws.foldl (layout_step cap s) ⟨[], [], 0, 0, 0⟩ with hst
  unfold layout layout_finish
  rw [← hst]
  split
  · exact h1
  · rename_i hcur
    intro l hl
    match hls : st.lines with
    | [] =>
      rw [hls] at hl
      simp at hl
    | a :: rest =>
      rw [hls] at hl
      simp only [List.cons_append, List.drop_succ_cons, List.drop_zero] at hl
      rcases List.mem_append.mp hl with hm | hm
      · exact h1 l (by rw [hls]; simpa using hm)
      · simp at hm
        rw [hm]
        exact hcur

/-- The "every committed line and the open line are non-empty" invariant,
established once the first word fits the caption width. -/
def all_nonempty_inv (st : LayoutState) : Prop :=
  (∀ l ∈ st.lines, l.words ≠ []) ∧ st.current_line ≠ []

theorem layout_step_all_nonempty (cap s : Nat) (st : LayoutState) (w : LWord)
    (h : all_nonempty_inv st) : all_nonempty_inv (layout_step cap s st w) := by
  obtain ⟨h1, h2⟩ := h
  unfold layout_step
  split
  · constructor
    · intro l hl
      rcases List.mem_append.mp hl with hm | hm
      · exact h1 l hm
      · simp at hm
        rw [hm]
        exact h2
    · simp [entryOf]
  · exact ⟨h1, by simp⟩

/-- When the first word fits within the caption width, every produced line
holds at least one word. (Named helper; the claim-level statement is
`layout_line_closing`.) -/
theorem layout_all_nonempty (cap s : Nat) (w : LWord) (ws : List LWord)
    (hw : w.width ≤ cap) :
    ∀ l ∈ (layout cap s (w :: ws)).1, l.words ≠ [] := by
  have hfirst : layout_step cap s ⟨[], [], 0, 0, 0⟩ w =
      ⟨[], [entryOf w], w.width + s, w.height, 0⟩ := by
    unfold layout_step
    have : ¬ cap < 0 + w.width := by omega
    simp [this, hw]
  have hinv : all_nonempty_inv ((w :: ws).foldl (layout_step cap s) ⟨[], [], 0, 0, 0⟩) := by
    simp only [List.foldl_cons]
    refine foldl_layout_inv cap s _ (layout_step_all_nonempty cap s) ws _ ?_
    rw [hfirst]
    exact ⟨by simp, by simp⟩
  obtain ⟨h1, h2⟩ := hinv
  unfold layout layout_finish
  split
  · exact h1
  · intro l hl
    rcases List.mem_append.mp hl with hm | hm
    · exact h1 l hm
    · simp at hm
      rw [hm]
      exact h2

/-- C3 (counterexample): the claim says the layout closes the current line
only when it is non-empty, and that every produced line contains at least one
word.  But the source's overflow check (caption_creator.py line 178) does not
test for emptiness: a first word of width 200 against a caption width of 100
commits the empty current line, so the produced layout starts with a line
holding no words. -/
theorem layout_empty_line_counterexample :
    ((layout 100 10 [⟨"WIDE", "white", 200, 20⟩]).1.map LLine.words) =
      [[], [("WIDE", "white", 200)]] ∧
    ¬ (∀ l ∈ (layout 100 10 [⟨"WIDE", "white", 200, 20⟩]).1, l.words ≠ []) := by
  constructor
  · decide
  · decide

/-- C3 (amended): every produced line other than the first holds at least one
word; a word wider than the caption width is never split and is always the
only word of its line; and when the first input word fits within the caption
width every produced line (the first included) holds at least one word.  The
one departure from the claim: an oversized *first* word is preceded by one
empty committed line. -/
theorem layout_line_closing (cap s : Nat) (ws : List LWord) (l : LLine)
    (hl : l ∈ (layout cap s ws).1) :
    (l ∈ (layout cap s ws).1.drop 1 → l.words ≠ []) ∧
    (∀ e ∈ l.words, cap < e.2.2 → l.words = [e]) ∧
    (∀ w ws2, ws = w :: ws2 → w.width ≤ cap → l.words ≠ []) := by
  refine ⟨fun hd => layout_tail_nonempty cap s ws l hd, ?_, ?_⟩
  · intro e he hw
    exact line_ok_oversized cap s l.words (layout_lines_ok cap s ws l hl) e he hw
  · intro w ws2 hws hw
    rw [hws] at hl
    exact layout_all_nonempty cap s w ws2 hw l hl

/-- Witness for the amended C3 on the concrete layout of widths
`[120, 200(oversized), 50]` at caption width 150, space width 10: the
oversized word is alone on its line, and a non-first line is non-empty. -/
theorem layout_line_closing_witness :
    (⟨[("BIG", "white", 200)], 210, 20⟩ : LLine).words = [("BIG", "white", 200)] ∧
    (⟨[("C", "white", 50)], 60, 20⟩ : LLine).words ≠ [] :=
  ⟨(layout_line_closing 150 10
      [⟨"A", "white", 120, 20⟩, ⟨"BIG", "white", 200, 20⟩, ⟨"C", "white", 50, 20⟩]
      ⟨[("BIG", "white", 200)], 210, 20⟩ (by decide)).2.1
      ("BIG", "white", 200) (by decide) (by decide),
   (layout_line_closing 150 10
      [⟨"A", "white", 120, 20⟩, ⟨"BIG", "white", 200, 20⟩, ⟨"C", "white", 50, 20⟩]
      ⟨[("C", "white", 50)], 60, 20⟩ (by decide)).1 (by decide)⟩

/-- C6 (confirmed): for every produced line that is not a single word alone
exceeding the caption width, the sum of its word widths plus one inter-word
space per gap is at most the caption width. -/
theorem line_width_bound (cap s : Nat) (ws : List LWord) (l : LLine)
    (hl : l ∈ (layout cap s ws).1)
    (hns : ∀ e ∈ l.words, l.words = [e] → e.2.2 ≤ cap) :
    (l.words.map (fun e => e.2.2)).sum + (l.words.length - 1) * s ≤ cap := by
  rcases layout_lines_ok cap s ws l hl with hlen | hbound
  · match hes : l.words, hlen with
    | [], _ => simp
    | [e], _ =>
      have := hns e (by rw [hes]; simp) hes
      simp
      omega
  · unfold entries_width at hbound
    exact hbound

/-- Witness for C6 on the same concrete layout: the line `[("A", 120)]` obeys
`120 + 0 × 10 ≤ 150`. -/
theorem line_width_bound_witness :
    (([("A", "white", 120)] : List (String × String × Nat)).map
      (fun e => e.2.2)).sum +
      (([("A", "white", 120)] : List (String × String × Nat)).length - 1) * 10 ≤ 150 :=
  line_width_bound 150 10
    [⟨"A", "white", 120, 20⟩, ⟨"BIG", "white", 200, 20⟩, ⟨"C", "white", 50, 20⟩]
    ⟨[("A", "white", 120)], 130, 20⟩ (by decide) (by decide)

/-- C7 (confirmed): for a non-empty input, the multiset of word entries across
all produced lines equals the multiset of words fed into layout (in fact the
concatenation preserves order as well, by `layout_flat`). -/
theorem layout_word_conservation (cap s : Nat) (ws : List LWord)
    (hne : ws ≠ []) :
    (↑(flat_words (layout cap s ws).1) : Multiset (String × String × Nat)) =
      ↑(ws.map entryOf) := by
  rw [layout_flat]

/-- Witness for C7 on the concrete three-word layout. -/
theorem layout_word_conservation_witness :
    (↑(flat_words (layout 150 10
        [⟨"A", "white", 120, 20⟩, ⟨"BIG", "white", 200, 20⟩,
          ⟨"C", "white", 50, 20⟩]).1) : Multiset (String × String × Nat)) =
      ↑([⟨"A", "white", 120, 20⟩, ⟨"BIG", "white", 200, 20⟩,
          ⟨"C", "white", 50, 20⟩].map entryOf) :=
  layout_word_conservation 150 10
    [⟨"A", "white", 120, 20⟩, ⟨"BIG", "white", 200, 20⟩, ⟨"C", "white", 50, 20⟩]
    (by decide)

/-- Embedding of the caption-part marking loop of
`_create_highlighted_group_clip` (caption_creator.py lines 144-154): walk the
group with running absolute index `j`, clean each word, append `(word,
"white")` (both branches use `"white"`; the palette color is commented out in
the source), and remember the *display text* of the word at
`current_word_index` as `word_to_highlight` (last assignment wins, as in
Python). -/
def build_caption_parts_from (current : Nat) :
    List WordStamp → Nat → List (String × String) × Option String
  | [], _ => ([], none)
  | wd :: rest, j =>
    let w := clean_word wd.word
    let res := build_caption_parts_from current rest (j + 1)
    ((w, "white") :: res.1,
      match res.2 with
      | some x => some x
      | none => if j = current then some w else none)

/-- The `caption_parts` and `word_to_highlight` values for a group window starting at
absolute word index `groupStart`. -/
def build_caption_parts (group : List WordStamp) (current groupStart : Nat) :
    List (String × String) × Option String :=
  build_caption_parts_from current group groupStart

/-- The drawing pass's highlight decision (caption_creator.py line 207) is
`word_to_highlight == word`, a comparison of display *text*, applied to every
word of every line; this counts how many highlight background rectangles the
pass draws. -/
def highlight_rect_count (lines : List LLine) (wth : Option String) : Nat :=
  (flat_words lines).countP (fun e => wth = some e.1)

/-- The full highlight-relevant pipeline of `_create_highlighted_group_clip`:
mark the caption parts, measure each display word with `measure` (standing for
`draw.textbbox`), lay the words out, and count the highlight rectangles drawn.
-/
def create_highlighted_group_rects (measure : String → Nat × Nat)
    (s cap : Nat) (group : List WordStamp) (current groupStart : Nat) : Nat :=
  let parts := build_caption_parts group current groupStart
  let ws := parts.1.map (fun p => LWord.mk p.1 p.2 (measure p.1).1 (measure p.1).2)
  highlight_rect_count (layout cap s ws).1 parts.2

/-- C2 (code bug): with the two-word group `["go", "go"]` and current word
index 0, both words clean to the display text `"GO"`, the drawing pass's
text-equality test matches both, and *two* highlight background rectangles are
drawn in one group image — the claim's bound of at most one is violated.  The
first conjunct confirms only index 0 was marked; the failure is the
text-based, not index-based, comparison at draw time. -/
theorem highlight_not_exclusive_on_duplicates :
    (build_caption_parts [⟨"go", 0, 1⟩, ⟨"go", 1, 2⟩] 0 0).2 = some "GO" ∧
    create_highlighted_group_rects (fun _ => (50, 20)) 10 500
      [⟨"go", 0, 1⟩, ⟨"go", 1, 2⟩] 0 0 = 2 ∧
    ¬ create_highlighted_group_rects (fun _ => (50, 20)) 10 500
      [⟨"go", 0, 1⟩, ⟨"go", 1, 2⟩] 0 0 ≤ 1 := by
  refine ⟨?_, ?_, ?_⟩ <;> decide

/-- The style parameters of `config.py`'s `Config` dataclass that the caption
pipeline reads (defaults as in the source; colors and paths kept as strings,
decimals as exact rationals). -/
structure Config where
  font_size : Nat := 100
  text_color : String := "white"
  stroke_color : String := "black"
  stroke_width : Nat := 3
  use_fade_and_scale : Bool := true
  fade_duration : ℚ := 1/5
  scale_effect_intensity : ℚ := 3/20
  word_count : Nat := 4
  line_spacing : Nat := 10
  caption_width_ratio : ℚ := 9/10
  highlight_text : Bool := true
  highlight_bg_color : String := "#FF6B6B"
deriving DecidableEq, Repr

/-- The scale lambda of `_create_animated_text_clip` (caption_creator.py
line 132): `max(0.1, 1 + 0.15 * (1 - abs(t - duration/2) / max(0.1,
duration/2)))`.  The intensity is the literal `0.15` in the source. -/
def animated_text_scale (duration t : ℚ) : ℚ :=
  max (1/10) (1 + (3/20) * (1 - |t - duration / 2| / max (1/10) (duration / 2)))

/-- The formula of spec §4.5 with the intensity as a parameter, as the claim
reads it (`scale_effect_intensity`); a spec-side definition kept beside the
source-side `animated_text_scale` for comparison. -/
def spec_scale (intensity duration t : ℚ) : ℚ :=
  max (1/10) (1 + intensity * (1 - |t - duration / 2| / max (1/10) (duration / 2)))

/-- The scale factor a clip rendered by `_create_animated_text_clip` applies
at clip-local time `t` (caption_creator.py lines 128-132): the animated
profile when `use_fade_and_scale` is set, the identity scale otherwise. -/
def create_animated_clip_scale (cfg : Config) (duration t : ℚ) : ℚ :=
  if cfg.use_fade_and_scale then animated_text_scale duration t else 1

/-- C4 (counterexample): configure `scale_effect_intensity = 0.3` with
animation enabled; at the midpoint of a 1-second clip the code scales by
`1.15` (its hard-coded `0.15`), not the claimed `1.3`. -/
theorem animated_scale_ignores_config_intensity :
    ({ scale_effect_intensity := 3/10 } : Config).use_fade_and_scale = true ∧
    create_animated_clip_scale { scale_effect_intensity := 3/10 } 1 (1/2) = 23/20 ∧
    spec_scale (({ scale_effect_intensity := 3/10 } : Config).scale_effect_intensity)
      1 (1/2) = 13/10 ∧
    create_animated_clip_scale { scale_effect_intensity := 3/10 } 1 (1/2) ≠
      spec_scale (({ scale_effect_intensity := 3/10 } : Config).scale_effect_intensity)
        1 (1/2) := by
  refine ⟨rfl, ?_, ?_, ?_⟩
  · show max (1/10 : ℚ) (1 + (3/20) * (1 - |1/2 - 1/2| / max (1/10) (1/2))) = 23/20
    norm_num
  · show max (1/10 : ℚ) (1 + (3/10) * (1 - |1/2 - 1/2| / max (1/10) (1/2))) = 13/10
    norm_num
  · show max (1/10 : ℚ) (1 + (3/20) * (1 - |1/2 - 1/2| / max (1/10) (1/2))) ≠
      max (1/10 : ℚ) (1 + (3/10) * (1 - |1/2 - 1/2| / max (1/10) (1/2)))
    norm_num

/-- C4 (amended): for every clip rendered with animation enabled the scale at
clip-local time `t` equals `max(0.1, 1 + 0.15 × (1 − |t − duration/2| /
max(0.1, duration/2)))` — the intensity is the hard-coded `0.15` (equal to the
*default* `scale_effect_intensity` but ignoring the configured value); the
profile never drops below `0.1` and peaks at the clip's temporal midpoint. -/
theorem animated_scale_profile (cfg : Config) (duration t : ℚ)
    (h : cfg.use_fade_and_scale = true) :
    create_animated_clip_scale cfg duration t = spec_scale (3/20) duration t ∧
    (1/10 : ℚ) ≤ create_animated_clip_scale cfg duration t ∧
    create_animated_clip_scale cfg duration t ≤
      create_animated_clip_scale cfg duration (duration / 2) := by
  have hid : create_animated_clip_scale cfg duration t =
      animated_text_scale duration t := by
    unfold create_animated_clip_scale
    rw [h]
    simp
  have hid2 : create_animated_clip_scale cfg duration (duration / 2) =
      animated_text_scale duration (duration / 2) := by
    unfold create_animated_clip_scale
    rw [h]
    simp
  refine ⟨by rw [hid]; rfl, by rw [hid]; exact le_max_left _ _, ?_⟩
  rw [hid, hid2]
  unfold animated_text_scale
  have hmid : |duration / 2 - duration / 2| = 0 := by simp
  rw [hmid]
  have hmpos : (0 : ℚ) < max (1/10) (duration / 2) :=
    lt_of_lt_of_le (by norm_num) (le_max_left _ _)
  have habs : (0 : ℚ) ≤ |t - duration / 2| := abs_nonneg _
  have hdiv : (0 : ℚ) ≤ |t - duration / 2| / max (1/10) (duration / 2) :=
    div_nonneg habs (le_of_lt hmpos)
  have hzero : (0 : ℚ) / max (1/10) (duration / 2) = 0 := zero_div _
  rw [hzero]
  apply max_le_max (le_refl _)
  have : (1 : ℚ) - |t - duration / 2| / max (1/10) (duration / 2) ≤ 1 - 0 := by
    linarith
  nlinarith

/-- Witness for the amended C4: the default configuration, a 1-second clip,
`t = 0` — the scale is the floor of the triangular ramp and is bounded by the
midpoint value. -/
theorem animated_scale_profile_witness :
    ({} : Config).use_fade_and_scale = true ∧
    create_animated_clip_scale {} 1 0 = spec_scale (3/20) 1 0 ∧
    (1/10 : ℚ) ≤ create_animated_clip_scale {} 1 0 ∧
    create_animated_clip_scale {} 1 0 ≤ create_animated_clip_scale {} 1 (1/2) :=
  ⟨rfl, (animated_scale_profile {} 1 0 rfl).1, (animated_scale_profile {} 1 0 rfl).2.1,
    (animated_scale_profile {} 1 0 rfl).2.2⟩

/-- Embedding of `CaptionCreator._load_video_data` (caption_creator.py
lines 43-55).  The external video open and transcription call are modelled as
an `Option`: `none` when they raise, `some segments` when they succeed.  The
body performs *no* validation of the returned sequence — it is stored as-is;
only an exception from the external calls is re-raised as a descriptive
`ValueError`. -/
def load_video_data (transcription : Option (List WordStamp)) :
    Except String (List WordStamp) :=
  match transcription with
  | some ws => Except.ok ws
  | none => Except.error "Failed to load video data: transcription failed"

/-- What the scheduling loop does at one word index: stop the whole loop
(`break`), skip the index (`continue`), or emit a clip. -/
inductive StepAction where
  | halt
  | skip
  | emit
deriving DecidableEq, Repr

/-- The branch structure of one iteration of
`generate_grouped_captions_with_highlight` (caption_creator.py lines 314-322):
`break` when the word starts at or after the video end, `continue` when the
resolved duration is non-positive, emit otherwise. -/
def grouped_step_action (ts : List WordStamp) (vidDur : ℚ) (i : Nat)
    (h : i < ts.length) : StepAction :=
  let r := calculate_word_duration ts vidDur i h
  if vidDur ≤ r.1 then .halt
  else if r.2.2 ≤ 0 then .skip
  else .emit

/-- The branch structure of one iteration of `generate_word_by_word_captions`
(caption_creator.py lines 255-265): `break` at/after video end, `continue`
when the resolved duration is under 0.05 s, emit otherwise. -/
def word_step_action (ts : List WordStamp) (vidDur : ℚ) (i : Nat)
    (h : i < ts.length) : StepAction :=
  let r := calculate_word_duration ts vidDur i h
  if vidDur ≤ r.1 then .halt
  else if r.2.2 < 1/20 then .skip
  else .emit

/-- One emitted grouped-caption overlay clip: the word index whose timing
governs it, the group window, and the clip's start and duration. -/
structure GClip where
  index : Nat
  group_start : Nat
  group : List WordStamp
  start : ℚ
  duration : ℚ
deriving DecidableEq, Repr

/-- The loop of `generate_grouped_captions_with_highlight`
(caption_creator.py lines 307-329): iterate `i` upward, compute the group
window `[groupStart, groupEnd)` with `groupStart = (i / word_count) ×
word_count`, resolve timing, `break` at/after video end, `continue` on
non-positive duration, otherwise emit the clip.  `fuel` is the structural
bound on remaining iterations; the entry point passes `ts.length`, which is
exact. -/
def grouped_loop (ts : List WordStamp) (vidDur : ℚ) (wc : Nat) :
    Nat → Nat → List GClip
  | 0, _ => []
  | fuel + 1, i =>
    if h : i < ts.length then
      let group_start_index := i / wc * wc
      let group_end_index := min ts.length (group_start_index + wc)
      let group_words_data :=
        (ts.drop group_start_index).take (group_end_index - group_start_index)
      let r := calculate_word_duration ts vidDur i h
      if vidDur ≤ r.1 then []
      else if r.2.2 ≤ 0 then grouped_loop ts vidDur wc fuel (i + 1)
      else ⟨i, group_start_index, group_words_data, r.1, r.2.2⟩ ::
        grouped_loop ts vidDur wc fuel (i + 1)
    else []

/-- Embedding of `generate_grouped_captions_with_highlight`, as the ordered list of emitted
clips. -/
def generate_grouped_captions_with_highlight (ts : List WordStamp)
    (vidDur : ℚ) (wc : Nat) : List GClip :=
  grouped_loop ts vidDur wc ts.length 0

/-- One emitted word-by-word overlay clip: word index, cleaned display word,
start and duration. -/
structure WClip where
  index : Nat
  text : String
  start : ℚ
  duration : ℚ
deriving DecidableEq, Repr

/-- The loop of `generate_word_by_word_captions` (caption_creator.py
lines 255-275): `break` at/after the video end, `continue` when the duration
is under 0.05 s, otherwise emit the cleaned word as a clip. -/
def word_loop (ts : List WordStamp) (vidDur : ℚ) : Nat → Nat → List WClip
  | 0, _ => []
  | fuel + 1, i =>
    if h : i < ts.length then
      let r := calculate_word_duration ts vidDur i h
      if vidDur ≤ r.1 then []
      else if r.2.2 < 1/20 then word_loop ts vidDur fuel (i + 1)
      else ⟨i, clean_word (ts.get ⟨i, h⟩).word, r.1, r.2.2⟩ ::
        word_loop ts vidDur fuel (i + 1)
    else []

/-- Embedding of `generate_word_by_word_captions`, as the ordered list of emitted clips. -/
def generate_word_by_word_captions (ts : List WordStamp) (vidDur : ℚ) :
    List WClip :=
  word_loop ts vidDur ts.length 0

theorem grouped_loop_index_lt (ts : List WordStamp) (vidDur : ℚ) (wc i : Nat)
    (h : i < ts.length)
    (hs : vidDur ≤ (calculate_word_duration ts vidDur i h).1) :
    ∀ (fuel j : Nat), j ≤ i → ∀ c ∈ grouped_loop ts vidDur wc fuel j,
      c.index < i := by
  intro fuel
  induction fuel with
  | zero =>
    intro j hj c hc
    simp [grouped_loop] at hc
  | succ fuel ih =>
    intro j hj c hc
    rw [grouped_loop] at hc
    split at hc
    · rename_i hjlen
      simp only [] at hc
      split at hc
      · simp at hc
      · rename_i hnothalt
        have hji : j < i := by
          rcases Nat.lt_or_ge j i with hlt | hge
          · exact hlt
          · exfalso
            have hj2 : j = i := le_antisymm hj hge
            subst hj2
            exact hnothalt hs
        split at hc
        · exact ih (j + 1) (by omega) c hc
        · rcases List.mem_cons.mp hc with rfl | hc2
          · simpa using hji
          · exact ih (j + 1) (by omega) c hc2
    · simp at hc

theorem word_loop_index_lt (ts : List WordStamp) (vidDur : ℚ) (i : Nat)
    (h : i < ts.length)
    (hs : vidDur ≤ (calculate_word_duration ts vidDur i h).1) :
    ∀ (fuel j : Nat), j ≤ i → ∀ c ∈ word_loop ts vidDur fuel j, c.index < i := by
  intro fuel
  induction fuel with
  | zero =>
    intro j hj c hc
    simp [word_loop] at hc
  | succ fuel ih =>
    intro j hj c hc
    rw [word_loop] at hc
    split at hc
    · rename_i hjlen
      simp only [] at hc
      split at hc
      · simp at hc
      · rename_i hnothalt
        have hji : j < i := by
          rcases Nat.lt_or_ge j i with hlt | hge
          · exact hlt
          · exfalso
            have hj2 : j = i := le_antisymm hj hge
            subst hj2
            exact hnothalt hs
        split at hc
        · exact ih (j + 1) (by omega) c hc
        · rcases List.mem_cons.mp hc with rfl | hc2
          · simpa using hji
          · exact ih (j + 1) (by omega) c hc2
    · simp at hc

theorem grouped_loop_mem_emit (ts : List WordStamp) (vidDur : ℚ) (wc : Nat) :
    ∀ (fuel j : Nat), ∀ c ∈ grouped_loop ts vidDur wc fuel j,
      ∃ hc : c.index < ts.length,
        grouped_step_action ts vidDur c.index hc = StepAction.emit := by
  intro fuel
  induction fuel with
  | zero =>
    intro j c hc
    simp [grouped_loop] at hc
  | succ fuel ih =>
    intro j c hc
    rw [grouped_loop] at hc
    split at hc
    · rename_i hjlen
      simp only [] at hc
      split at hc
      · simp at hc
      · rename_i hnothalt
        split at hc
        · exact ih (j + 1) c hc
        · rename_i hnotskip
          rcases List.mem_cons.mp hc with rfl | hc2
          · refine ⟨hjlen, ?_⟩
            simp only [grouped_step_action]
            rw [if_neg hnothalt, if_neg hnotskip]
          · exact ih (j + 1) c hc2
    · simp at hc

theorem word_loop_mem_emit (ts : List WordStamp) (vidDur : ℚ) :
    ∀ (fuel j : Nat), ∀ c ∈ word_loop ts vidDur fuel j,
      ∃ hc : c.index < ts.length,
        word_step_action ts vidDur c.index hc = StepAction.emit := by
  intro fuel
  induction fuel with
  | zero =>
    intro j c hc
    simp [word_loop] at hc
  | succ fuel ih =>
    intro j c hc
    rw [word_loop] at hc
    split at hc
    · rename_i hjlen
      simp only [] at hc
      split at hc
      · simp at hc
      · rename_i hnothalt
        split at hc
        · exact ih (j + 1) c hc
        · rename_i hnotskip
          rcases List.mem_cons.mp hc with rfl | hc2
          · refine ⟨hjlen, ?_⟩
            simp only [word_step_action]
            rw [if_neg hnothalt, if_neg hnotskip]
          · exact ih (j + 1) c hc2
    · simp at hc

/-- C8 (confirmed): if the word at index `i` has its resolved start time at or
after the video duration, neither scheduling loop emits a clip for `i` or for
any later index — every emitted clip's word index is strictly below `i`. -/
theorem scheduler_stops_at_video_end (ts : List WordStamp) (vidDur : ℚ)
    (wc i : Nat) (h : i < ts.length)
    (hs : vidDur ≤ (calculate_word_duration ts vidDur i h).1) :
    (∀ c ∈ generate_grouped_captions_with_highlight ts vidDur wc, c.index < i) ∧
    (∀ c ∈ generate_word_by_word_captions ts vidDur, c.index < i) :=
  ⟨fun c hc =>
      grouped_loop_index_lt ts vidDur wc i h hs ts.length 0 (Nat.zero_le i) c hc,
   fun c hc =>
      word_loop_index_lt ts vidDur i h hs ts.length 0 (Nat.zero_le i) c hc⟩

/-- Witness for C8: two words, the second starting at 6 s in a 5-second video;
each scheduler emits only the index-0 clip, whose index is below 1. -/
theorem scheduler_stops_at_video_end_witness :
    (5 : ℚ) ≤ (calculate_word_duration [⟨"a", 1, 2⟩, ⟨"b", 6, 7⟩] 5 1
      (by decide)).1 ∧
    (⟨0, 0, [⟨"a", 1, 2⟩, ⟨"b", 6, 7⟩], 1, 4⟩ : GClip).index < 1 ∧
    (⟨0, "A", 1, 4⟩ : WClip).index < 1 :=
  ⟨by norm_num [calculate_word_duration],
   (scheduler_stops_at_video_end [⟨"a", 1, 2⟩, ⟨"b", 6, 7⟩] 5 4 1 (by decide)
      (by norm_num [calculate_word_duration])).1 _
      (by norm_num [generate_grouped_captions_with_highlight, grouped_loop,
        calculate_word_duration]),
   (scheduler_stops_at_video_end [⟨"a", 1, 2⟩, ⟨"b", 6, 7⟩] 5 4 1 (by decide)
      (by norm_num [calculate_word_duration])).2 _
      (by
        norm_num [generate_word_by_word_captions, word_loop,
          calculate_word_duration, clean_word, strip_chars]
        decide)⟩

/-- C9 (counterexample): a word starting at 6 s in a 5-second video has
resolved duration ≤ 0, yet the grouped scheduler *terminates* there (the
start-time `break` fires first) instead of skipping and continuing: the
follow-up word at index 1 would emit (its step action is `emit`), but the
produced clip list is empty. -/
theorem grouped_nonpositive_duration_can_halt :
    (calculate_word_duration [⟨"a", 6, 7⟩, ⟨"b", 1, 2⟩] 5 0 (by decide)).2.2 ≤ 0 ∧
    grouped_step_action [⟨"a", 6, 7⟩, ⟨"b", 1, 2⟩] 5 0 (by decide) =
      StepAction.halt ∧
    grouped_step_action [⟨"a", 6, 7⟩, ⟨"b", 1, 2⟩] 5 1 (by decide) =
      StepAction.emit ∧
    generate_grouped_captions_with_highlight [⟨"a", 6, 7⟩, ⟨"b", 1, 2⟩] 5 4 = [] := by
  refine ⟨?_, ?_, ?_, ?_⟩ <;>
    norm_num [calculate_word_duration, grouped_step_action,
      generate_grouped_captions_with_highlight, grouped_loop]

/-- C9 (amended): for every word index whose resolved duration is ≤ 0 *and*
whose start time is before the video duration, the grouped scheduler's step is
`skip`: no clip is emitted for that index (no error is modelled — the loop is
total) and the loop continues at the next index.  (When the start time is at
or after the video duration — which forces duration ≤ 0 — the loop instead
terminates, per C8.) -/
theorem grouped_skip_nonpositive_duration (ts : List WordStamp) (vidDur : ℚ)
    (wc i fuel : Nat) (h : i < ts.length)
    (hst : (calculate_word_duration ts vidDur i h).1 < vidDur)
    (hd : (calculate_word_duration ts vidDur i h).2.2 ≤ 0) :
    grouped_step_action ts vidDur i h = StepAction.skip ∧
    grouped_loop ts vidDur wc (fuel + 1) i = grouped_loop ts vidDur wc fuel (i + 1) ∧
    ∀ c ∈ generate_grouped_captions_with_highlight ts vidDur wc, c.index ≠ i := by
  have hact : grouped_step_action ts vidDur i h = StepAction.skip := by
    simp only [grouped_step_action]
    rw [if_neg (not_le.mpr hst), if_pos hd]
  refine ⟨hact, ?_, ?_⟩
  · rw [grouped_loop, dif_pos h]
    simp only []
    rw [if_neg (not_le.mpr hst), if_pos hd]
  · intro c hc hci
    obtain ⟨hlt, hemit⟩ := grouped_loop_mem_emit ts vidDur wc ts.length 0 c hc
    cases hci
    have hbridge : grouped_step_action ts vidDur c.index hlt =
        grouped_step_action ts vidDur c.index h := rfl
    rw [hbridge, hact] at hemit
    cases hemit

/-- Witness for the amended C9: two words with equal start times (2 s) in a
10-second video — index 0 resolves to duration 0, is skipped, and the loop
continues to index 1, which emits. -/
theorem grouped_skip_nonpositive_duration_witness :
    (calculate_word_duration [⟨"a", 2, 3⟩, ⟨"b", 2, 3⟩] 10 0 (by decide)).1 < 10 ∧
    (calculate_word_duration [⟨"a", 2, 3⟩, ⟨"b", 2, 3⟩] 10 0 (by decide)).2.2 ≤ 0 ∧
    grouped_step_action [⟨"a", 2, 3⟩, ⟨"b", 2, 3⟩] 10 0 (by decide) =
      StepAction.skip ∧
    grouped_loop [⟨"a", 2, 3⟩, ⟨"b", 2, 3⟩] 10 4 2 0 =
      grouped_loop [⟨"a", 2, 3⟩, ⟨"b", 2, 3⟩] 10 4 1 1 :=
  ⟨by norm_num [calculate_word_duration],
   by norm_num [calculate_word_duration],
   (grouped_skip_nonpositive_duration [⟨"a", 2, 3⟩, ⟨"b", 2, 3⟩] 10 4 0 1
      (by decide) (by norm_num [calculate_word_duration])
      (by norm_num [calculate_word_duration])).1,
   (grouped_skip_nonpositive_duration [⟨"a", 2, 3⟩, ⟨"b", 2, 3⟩] 10 4 0 1
      (by decide) (by norm_num [calculate_word_duration])
      (by norm_num [calculate_word_duration])).2.1⟩

/-- C10 (counterexample): a word starting at 7 s in a 5-second video has
resolved duration below 0.05 s, yet the word-by-word scheduler *terminates*
there (the start-time `break` fires first) instead of skipping and
continuing: index 1 would emit, but the produced clip list is empty. -/
theorem word_by_word_short_duration_can_halt :
    (calculate_word_duration [⟨"a", 7, 8⟩, ⟨"b", 1, 2⟩] 5 0 (by decide)).2.2 <
      1/20 ∧
    word_step_action [⟨"a", 7, 8⟩, ⟨"b", 1, 2⟩] 5 0 (by decide) =
      StepAction.halt ∧
    word_step_action [⟨"a", 7, 8⟩, ⟨"b", 1, 2⟩] 5 1 (by decide) =
      StepAction.emit ∧
    generate_word_by_word_captions [⟨"a", 7, 8⟩, ⟨"b", 1, 2⟩] 5 = [] := by
  refine ⟨?_, ?_, ?_, ?_⟩ <;>
    norm_num [calculate_word_duration, word_step_action,
      generate_word_by_word_captions, word_loop]

/-- C10 (amended): in word-by-word generation, every index whose start time is
before the video duration and whose resolved duration is under 0.05 s —
including strictly positive durations below 50 ms — is skipped: no clip is
emitted for it and the loop continues at the next index.  The cutoff `duration
< 0.05` is strict and stricter than the grouped scheduler's `duration ≤ 0`.
(When the start time is at or after the video duration the loop instead
terminates, per C8.) -/
theorem word_by_word_skip_short_duration (ts : List WordStamp) (vidDur : ℚ)
    (i fuel : Nat) (h : i < ts.length)
    (hst : (calculate_word_duration ts vidDur i h).1 < vidDur)
    (hd : (calculate_word_duration ts vidDur i h).2.2 < 1/20) :
    word_step_action ts vidDur i h = StepAction.skip ∧
    word_loop ts vidDur (fuel + 1) i = word_loop ts vidDur fuel (i + 1) ∧
    ∀ c ∈ generate_word_by_word_captions ts vidDur, c.index ≠ i := by
  have hact : word_step_action ts vidDur i h = StepAction.skip := by
    simp only [word_step_action]
    rw [if_neg (not_le.mpr hst), if_pos hd]
  refine ⟨hact, ?_, ?_⟩
  · rw [word_loop, dif_pos h]
    simp only []
    rw [if_neg (not_le.mpr hst), if_pos hd]
  · intro c hc hci
    obtain ⟨hlt, hemit⟩ := word_loop_mem_emit ts vidDur ts.length 0 c hc
    cases hci
    have hbridge : word_step_action ts vidDur c.index hlt =
        word_step_action ts vidDur c.index h := rfl
    rw [hbridge, hact] at hemit
    cases hemit

/-- Witness for the amended C10: the first word lasts 10 ms (a strictly
positive duration under the 50 ms cutoff) in a 10-second video — it is
skipped and the loop continues at index 1, which emits. -/
theorem word_by_word_skip_short_duration_witness :
    (calculate_word_duration [⟨"a", 2, 3⟩, ⟨"b", 201/100, 3⟩] 10 0
      (by decide)).1 < 10 ∧
    (0 : ℚ) < (calculate_word_duration [⟨"a", 2, 3⟩, ⟨"b", 201/100, 3⟩] 10 0
      (by decide)).2.2 ∧
    (calculate_word_duration [⟨"a", 2, 3⟩, ⟨"b", 201/100, 3⟩] 10 0
      (by decide)).2.2 < 1/20 ∧
    word_step_action [⟨"a", 2, 3⟩, ⟨"b", 201/100, 3⟩] 10 0 (by decide) =
      StepAction.skip ∧
    word_loop [⟨"a", 2, 3⟩, ⟨"b", 201/100, 3⟩] 10 2 0 =
      word_loop [⟨"a", 2, 3⟩, ⟨"b", 201/100, 3⟩] 10 1 1 :=
  ⟨by norm_num [calculate_word_duration],
   by norm_num [calculate_word_duration],
   by norm_num [calculate_word_duration],
   (word_by_word_skip_short_duration [⟨"a", 2, 3⟩, ⟨"b", 201/100, 3⟩] 10 0 1
      (by decide) (by norm_num [calculate_word_duration])
      (by norm_num [calculate_word_duration])).1,
   (word_by_word_skip_short_duration [⟨"a", 2, 3⟩, ⟨"b", 201/100, 3⟩] 10 0 1
      (by decide) (by norm_num [calculate_word_duration])
      (by norm_num [calculate_word_duration])).2.1⟩

/-- C5 (counterexample): an *empty* transcription sequence is not rejected:
`_load_video_data` stores it without validation, and the grouped scheduler
then runs to completion, returning the empty clip list — the session never
fails, before or during scheduling. -/
theorem load_video_data_accepts_empty :
    load_video_data (some []) = Except.ok [] ∧
    generate_grouped_captions_with_highlight [] 10 4 = [] := by
  exact ⟨rfl, rfl⟩

/-- C5 (amended): `_load_video_data` performs no content validation at all —
every successfully transcribed sequence (empty, malformed or non-monotonic
included) is accepted as-is and scheduling proceeds (an empty sequence yields
no clips); only an exception raised by the video/transcription collaborators
is surfaced, as a descriptive `ValueError`. -/
theorem load_video_data_no_validation (ws : List WordStamp) (vidDur : ℚ)
    (wc : Nat) :
    load_video_data (some ws) = Except.ok ws ∧
    load_video_data none =
      Except.error "Failed to load video data: transcription failed" ∧
    generate_grouped_captions_with_highlight [] vidDur wc = [] :=
  ⟨rfl, rfl, rfl⟩
